import Mathlib

/-!
Verification development for the work-order processing pipeline.

The pipeline's algorithmic core (numbered-field response parsing, service-table
reconstruction, categorization response parsing, taxonomy validation and
consolidation) lives in `process_pdfs_to_bigquery.py` and
`apply_ml_categorization.py`.  Strings are embedded as `List Char`; Python
string helpers (`strip`, `split`, `replace`, `in`, `startswith`, `int()`,
`float()`) are modelled below on the ASCII fragment the pipeline exercises.
-/

/-- Python `str.isspace` test for the ASCII whitespace characters recognised by
`str.strip()` (space, tab, newline, carriage return, vertical tab, form feed). -/
def pyIsSpace (c : Char) : Bool :=
  c == ' ' || c == '\t' || c == '\n' || c == '\r' || c == '\x0b' || c == '\x0c'

/-- ASCII decimal digit test (`'0' ≤ c ≤ '9'`). -/
def isDigitChar (c : Char) : Bool :=
  decide (48 ≤ c.toNat) && decide (c.toNat ≤ 57)

/-- Numeric value of an ASCII digit character. -/
def digitVal (c : Char) : Nat := c.toNat - 48

/-- Right-hand side of Python `str.rstrip()`: remove trailing whitespace. -/
def rstripChars : List Char → List Char
  | [] => []
  | c :: r =>
    match rstripChars r with
    | [] => if pyIsSpace c then [] else [c]
    | x :: xs => c :: x :: xs

/-- Python `str.strip()`: remove leading and trailing whitespace. -/
def pyStrip (s : List Char) : List Char :=
  rstripChars (s.dropWhile pyIsSpace)

/-- Python `text.split('\n')`: split at every newline, keeping empty pieces. -/
def splitNl : List Char → List (List Char)
  | [] => [[]]
  | c :: r =>
    if c = '\n' then [] :: splitNl r
    else
      match splitNl r with
      | [] => [[c]]
      | h :: t => (c :: h) :: t

/-- Python `line.split(sep, 1)` for a one-character separator, returning `none`
when the separator does not occur (the `':' not in line` test). -/
def splitFirst (c : Char) : List Char → Option (List Char × List Char)
  | [] => none
  | x :: r =>
    if x = c then some ([], r)
    else (splitFirst c r).map (fun p => (x :: p.1, p.2))

/-- Digit-run accumulator for Python `int()`: accepts ASCII digits with single
underscores between digits, as Python's integer literal grammar does. -/
def goDigits : Nat → List Char → Option Nat
  | acc, [] => some acc
  | acc, c :: r =>
    if c = '_' then
      match r with
      | d :: r2 => if isDigitChar d then goDigits (10 * acc + digitVal d) r2 else none
      | [] => none
    else if isDigitChar c then goDigits (10 * acc + digitVal c) r
    else none

/-- Unsigned digit part of Python `int()`: nonempty ASCII digit run with
optional single underscores between digits. -/
def digitsVal : List Char → Option Nat
  | [] => none
  | c :: r => if isDigitChar c then goDigits (digitVal c) r else none

/-- Models Python `int(s)` on an already-stripped ASCII string: optional sign
followed by a digit run (underscore separators allowed between digits);
any other input raises `ValueError`, modelled as `none`.  Non-ASCII digits,
which Python would also accept, do not occur in this pipeline's data. -/
def pyInt : List Char → Option Int
  | [] => none
  | c :: r =>
    if c = '+' then (digitsVal r).map (fun n => (n : Int))
    else if c = '-' then (digitsVal r).map (fun n => -(n : Int))
    else (digitsVal (c :: r)).map (fun n => (n : Int))

/-- Value of an ASCII digit string (most significant digit first). -/
def digitsToNat (ds : List Char) : Nat :=
  ds.foldl (fun a c => 10 * a + digitVal c) 0

/-- Field-label token extraction from `extract_data_with_claude`
(`process_pdfs_to_bigquery.py` lines 116-120): strip the left part of the
colon split, and if it contains a period keep only the stripped text before
the first period. -/
def labelTok (lft : List Char) : List Char :=
  let fn := pyStrip lft
  if '.' ∈ fn then pyStrip (fn.takeWhile (fun c => ¬ (c = '.'))) else fn

/-- One iteration of the response-parsing loop in `extract_data_with_claude`
(`process_pdfs_to_bigquery.py` lines 107-126): strip the line, skip it when
blank or colon-free, split at the first colon, parse the label token as an
integer (a failure skips the line), and pair the index with the stripped
value.  The Python `len(parts) != 2` test is unreachable after the
`':' not in line` test and has no counterpart here. -/
def lineEntry (line : List Char) : Option (Int × List Char) :=
  let l := pyStrip line
  if l = [] then none
  else
    match splitFirst ':' l with
    | none => none
    | some (lft, rgt) =>
      match pyInt (labelTok lft) with
      | some k => some (k, pyStrip rgt)
      | none => none

/-- The extracted-fields dictionary: Python `dict` keyed by `int`. -/
def FieldMap : Type := Int → Option (List Char)

/-- Empty dictionary. -/
def fmEmpty : FieldMap := fun _ => none

/-- Python `extracted_fields[field_index] = field_value`. -/
def fmSet (m : FieldMap) (k : Int) (v : List Char) : FieldMap :=
  fun i => if i = k then some v else m i

/-- Loop body of the response-parsing loop: record the line's entry, if any,
overwriting any previous value at the same index. -/
def parseStep (m : FieldMap) (line : List Char) : FieldMap :=
  match lineEntry line with
  | some kv => fmSet m kv.1 kv.2
  | none => m

/-- The response-parsing loop of `extract_data_with_claude`
(`process_pdfs_to_bigquery.py` lines 104-126): strip the response text, split
it into lines, and fold the per-line step over them, later lines overwriting
earlier values at the same index. -/
def parseFields (text : List Char) : FieldMap :=
  (splitNl (pyStrip text)).foldl parseStep fmEmpty

/-- Index a qualifying line would store to (used to speak about which lines of
a response can touch a given field index). -/
def lineIdx (line : List Char) : Option Int :=
  (lineEntry line).map Prod.fst

/-- Models `safe_int` (`process_pdfs_to_bigquery.py` lines 177-188) on its
string/None inputs: `None`, the empty string and `"N/A"` give `None`; otherwise
the stripped string is parsed with `int()`, values under 100 are shifted by
2000 (two-digit years), and a parse failure gives `None`. -/
def safe_int (value : Option (List Char)) : Option Int :=
  match value with
  | none => none
  | some s =>
    if s = [] then none
    else if s = "N/A".data then none
    else
      match pyInt (pyStrip s) with
      | some n => some (if n < 100 then n + 2000 else n)
      | none => none

/-- Maximal-munch digit run for Python `float()`: parses a leading digit run
(underscores allowed between digits) and returns its value, the number of
digits consumed and the remaining input; a misplaced underscore fails. -/
def goTakeDigits : Nat → Nat → List Char → Option (Nat × Nat × List Char)
  | v, n, [] => some (v, n, [])
  | v, n, '_' :: r =>
    match r with
    | d :: r2 => if isDigitChar d then goTakeDigits (10 * v + digitVal d) (n + 1) r2 else none
    | [] => none
  | v, n, c :: r =>
    if isDigitChar c then goTakeDigits (10 * v + digitVal c) (n + 1) r
    else some (v, n, c :: r)

/-- Leading digit part for Python `float()`: requires at least one digit. -/
def takeDigits : List Char → Option (Nat × Nat × List Char)
  | [] => none
  | c :: r => if isDigitChar c then goTakeDigits (digitVal c) 1 r else none

/-- Models Python `float(s)` on an already-stripped ordinary decimal literal:
optional sign, an integer part and/or fractional part, and an optional
exponent, with underscore separators between digits; any other input raises
`ValueError`, modelled as `none`.  The special spellings `inf`/`nan`, which
Python also accepts, never occur in this pipeline's numeric fields, and values
are kept exact in `ℚ` (the claims only exercise exactly representable ones). -/
def pyFloat (s : List Char) : Option ℚ :=
  let sgnrest : Bool × List Char :=
    match s with
    | '+' :: r => (false, r)
    | '-' :: r => (true, r)
    | _ => (false, s)
  let mant : Option (Nat × Nat × List Char) :=
    match sgnrest.2 with
    | '.' :: r =>
      match takeDigits r with
      | some (fv, fn, rest) => some (fv, fn, rest)
      | none => none
    | s1 =>
      match takeDigits s1 with
      | some (iv, _, rest) =>
        match rest with
        | '.' :: r2 =>
          match r2 with
          | c :: _ =>
            if isDigitChar c then
              match takeDigits r2 with
              | some (fv, fn, rest2) => some (iv * 10 ^ fn + fv, fn, rest2)
              | none => none
            else if c = '_' then none
            else some (iv, 0, r2)
          | [] => some (iv, 0, [])
        | _ => some (iv, 0, rest)
      | none => none
  match mant with
  | none => none
  | some (mv, fn, rest) =>
    let signed : Nat → Int := fun n => if sgnrest.1 then -(n : Int) else (n : Int)
    match rest with
    | [] => some (mkRat (signed mv) (10 ^ fn))
    | e :: r3 =>
      if e = 'e' ∨ e = 'E' then
        let esgnrest : Bool × List Char :=
          match r3 with
          | '+' :: r => (false, r)
          | '-' :: r => (true, r)
          | _ => (false, r3)
        match takeDigits esgnrest.2 with
        | some (ev, _, rest2) =>
          if rest2 = [] then
            some (if esgnrest.1 then mkRat (signed mv) (10 ^ fn * 10 ^ ev)
              else mkRat (signed (mv * 10 ^ ev)) (10 ^ fn))
          else none
        | none => none
      else none

/-- Models `safe_float` (`process_pdfs_to_bigquery.py` lines 266-273): the
empty string and `"N/A"` give `None`; otherwise the stripped string is passed
to `float()`, a failure giving `None`. -/
def safe_float (s : List Char) : Option ℚ :=
  if s = [] then none
  else if s = "N/A".data then none
  else pyFloat (pyStrip s)

/-- Python `startswith` / list-of-characters prefix test. -/
def lPre : List Char → List Char → Bool
  | [], _ => true
  | _ :: _, [] => false
  | a :: x, b :: y => a == b && lPre x y

/-- Python substring test `needle in hay`. -/
def lSub (needle : List Char) : List Char → Bool
  | [] => lPre needle []
  | c :: r => lPre needle (c :: r) || lSub needle r

/-- Fuel-driven scan for Python `str.replace(old, new)`: replace non-overlapping
occurrences left to right.  The fuel only has to cover the input length, since
every step consumes at least one character. -/
def goReplace : Nat → List Char → List Char → List Char → List Char
  | 0, _, _, s => s
  | _ + 1, _, _, [] => []
  | fuel + 1, p, r, c :: rest =>
    if lPre p (c :: rest) then r ++ goReplace fuel p r (List.drop p.length (c :: rest))
    else c :: goReplace fuel p r rest

/-- Python `s.replace(p, r)` (all occurrences, left to right). -/
def pyReplace (p r s : List Char) : List Char :=
  goReplace s.length p r s

/-- Models `clean_hours` (`process_pdfs_to_bigquery.py` lines 260-264): an
empty value gives `""`; otherwise the six unit-suffix patterns are removed by
chained `replace` calls in source order. -/
def clean_hours (s : List Char) : List Char :=
  if s = [] then []
  else
    pyReplace "/man".data []
      (pyReplace " /man".data []
        (pyReplace " man".data []
          (pyReplace "/each".data []
            (pyReplace " /each".data []
              (pyReplace " each".data [] s)))))

/-- One service line of the BigQuery services array
(`process_pdfs_to_bigquery.py` lines 196-201). -/
structure ServiceLineItem where
  service_type : List Char
  date : List Char
  quantity : Option ℚ
  hours : Option ℚ
deriving DecidableEq, Repr

/-- Python `fields.get(k, "")`. -/
def fgetD (f : FieldMap) (k : Int) : List Char := (f k).getD []

/-- Truthiness-and-sentinel test `fields.get(k) and fields.get(k) != "N/A"`
used by `extract_services` to decide whether a line is present: an absent key
and the empty string are falsy, and the placeholder `"N/A"` is excluded. -/
def linePresent (v : Option (List Char)) : Bool :=
  match v with
  | none => false
  | some s => !(decide (s = [])) && !(decide (s = "N/A".data))

/-- One appended service dict (`process_pdfs_to_bigquery.py` lines 196-201 and
the analogous stanzas): service type from index `t`, date from `d`, quantity
from `q` through `safe_float`, hours from `h` through `clean_hours` then
`safe_float`. -/
def mkItem (f : FieldMap) (t d q h : Int) : ServiceLineItem :=
  { service_type := fgetD f t
    date := fgetD f d
    quantity := safe_float (fgetD f q)
    hours := safe_float (clean_hours (fgetD f h)) }

/-- Models `extract_services` (`process_pdfs_to_bigquery.py` lines 190-258):
four service slots, each emitting its primary line when the slot's
service-type field is present (per `linePresent`), and then — only inside that
test, as in the source — its continuation line when the continuation date
field is present; an empty list is returned as `None`. -/
def extract_services (f : FieldMap) : Option (List ServiceLineItem) :=
  let services :=
    (if linePresent (f 8) then
      mkItem f 8 9 10 11 :: (if linePresent (f 12) then [mkItem f 8 12 13 14] else [])
     else [])
    ++ (if linePresent (f 15) then
      mkItem f 15 16 17 18 :: (if linePresent (f 19) then [mkItem f 15 19 20 21] else [])
     else [])
    ++ (if linePresent (f 22) then
      mkItem f 22 23 24 25 :: (if linePresent (f 26) then [mkItem f 22 26 27 28] else [])
     else [])
    ++ (if linePresent (f 29) then
      mkItem f 29 30 31 32 :: (if linePresent (f 33) then [mkItem f 29 33 34 35] else [])
     else [])
  if services = [] then none else some services

/-- Valid AEON categories (`apply_ml_categorization.py` lines 50-69). -/
def AEON_CATEGORIES : List (List Char) :=
  ["Straw Installation".data, "Straw Removal".data,
   "Cleaning/loading sidewalk debris".data, "Hauling sidewalk debris".data,
   "Spreading Debris at Stockpile".data, "Cleaning/Loading Debris".data,
   "Excavate Infiltration".data, "Supply Material (Infiltration)".data,
   "Install Infiltration".data,
   "Backfill Infiltration".data, "Compaction infiltration".data,
   "Relevel After Infiltration Backfill".data,
   "Initial Install of Slabs and Steps (Rear)".data,
   "Temporary Installation of Slabs and Steps (Front)".data, "Relevel Slabs".data,
   "Initial install of window wells".data,
   "Grading Work".data, "Topping Up Under Structures".data,
   "Filter Cloth Installation".data,
   "Regrading washouts due to heavy rains".data, "Grade & Sod Contract Completions".data,
   "Extra Deep Sod (125 feet)".data, "Removing filter cloth from rear yard".data,
   "Loading & Hauling Topsoil/Fill Stockpile Within Site".data, "Spreading at Stockpile".data,
   "Leveling at Stockpile".data,
   "Loading & Hauling Topsoil/Fill from Lots to Stockpile".data,
   "Loading & Hauling Topsoil/Fill from Lot to Lot".data,
   "Spreading Topsoil on Lots".data, "Spreading Topsoil".data,
   "Loading & Hauling Topsoil/Fill from Stockpile to Lots".data,
   "Importing Topsoil/Fill From Offsite".data, "Topsoil Placement for In-Betweens".data,
   "Spreading/Topping Up In-Betweens".data,
   "Removing Rocks & Debris from Topsoil".data,
   "Sod Removal".data, "Settlement Repairs".data, "Curb settlement repairs".data,
   "Sod Material for Curb Repair".data,
   "Driveway Edge Settlement Repairs".data, "Sod Material for Driveway Edge".data,
   "Miscellaneous".data, "Bin Management".data, "Indoor Cleaning".data,
   "Garbage Collection".data, "Brick Management".data,
   "Concrete Work".data, "Equipment Supply".data, "Garage Filling & Leveling".data,
   "Labor Supply".data, "Road Maintenance".data,
   "Wall & Fence Installation".data, "Water Management".data,
   "Drainage System Installation".data, "Sod Installation".data]

/-- Valid AE3 categories (`apply_ml_categorization.py` lines 71-86). -/
def AE3_CATEGORIES : List (List Char) :=
  ["Ripping Basement".data, "Ripping Sewers".data, "Ripping Base".data, "Ripping Backfill".data,
   "Stockpile Sewer".data, "Stockpile Basement".data, "Backfill Basement".data,
   "Sewer Backfill".data,
   "Sewer Excavation".data, "Basement Excavation".data, "Double Cast Sewer".data,
   "Double Cast Basement".data,
   "Straw Installation".data, "Straw Removal".data,
   "Strip Topsoil prior to Excavation".data, "Driveway Cut".data,
   "Loading Fill From Lots".data, "Loading Fill To Lots".data, "Haul From Stockpile".data,
   "Haul To Stockpile".data,
   "Loading Excess Fill Offsite".data, "Hauling Excess Fill Offsite".data,
   "Spreading At Stockpile".data,
   "Rough Grade".data, "Low Lots".data, "Base Condition".data, "Concrete Work".data, "Mud".data,
   "General Stockpile".data, "Grade".data, "Releveling".data, "Spreading/Top Up".data,
   "Cast/ Double Cast".data, "General Straw".data, "Road".data, "Tarp".data, "Flagman".data,
   "Snow".data, "Ramp".data,
   "Miscellaneous".data]

/-- AEON taxonomy validation (`apply_ml_categorization.py` lines 120-121): a
label that does not start with `"Settlement Repairs"` or `"Miscellaneous"` and
is not an exact member of `AEON_CATEGORIES` is rewritten to
`"Miscellaneous (<label>)"`. -/
def aeonValidateLabel (service : List Char) : List Char :=
  if !(lPre "Settlement Repairs".data service) && !(lPre "Miscellaneous".data service)
      && !(decide (service ∈ AEON_CATEGORIES)) then
    "Miscellaneous (".data ++ service ++ ")".data
  else service

/-- AE3 substitution rules (`apply_ml_categorization.py` lines 187-195). -/
def ae3Substitute (service : List Char) : List Char :=
  if service = "Haul From Lots".data then "Haul To Stockpile".data
  else if service = "Haul To Lots".data then "Haul From Stockpile".data
  else if service = "Loading Fill To Stockpile".data then "Loading Fill From Lots".data
  else if service = "Loading Fill From Stockpile".data then "Loading Fill To Lots".data
  else service

/-- AE3 taxonomy validation (`apply_ml_categorization.py` lines 197-199): a
label that does not start with `"Miscellaneous"` and is not an exact member of
`AE3_CATEGORIES` is rewritten to `"Miscellaneous (<label>)"`. -/
def ae3ValidateLabel (service : List Char) : List Char :=
  if !(lPre "Miscellaneous".data service) && !(decide (service ∈ AE3_CATEGORIES)) then
    "Miscellaneous (".data ++ service ++ ")".data
  else service

/-- Fuel-driven scanner for `re.split(r'\n\n(?=Service:)', text)`: walk the
text and cut at each occurrence of two newlines immediately followed by the
literal `Service:`, consuming the two newlines and keeping the lookahead text.
The scan advances at least one character per step, so fuel equal to the input
length always suffices; on exhausted fuel the remaining text is one block. -/
def goSplitBlocks : Nat → List Char → List Char × List (List Char)
  | 0, s => (s, [])
  | _ + 1, [] => ([], [])
  | fuel + 1, c :: rest =>
    if c = '\n' && lPre ('\n' :: "Service:".data) rest then
      let p := goSplitBlocks fuel (rest.drop 1)
      ([], p.1 :: p.2)
    else
      let p := goSplitBlocks fuel rest
      (c :: p.1, p.2)

/-- Python `re.split(r'\n\n(?=Service:)', s)` (`apply_ml_categorization.py`
lines 109 and 176): the list of blocks between cut points. -/
def reSplitServiceBlocks (s : List Char) : List (List Char) :=
  (goSplitBlocks s.length s).1 :: (goSplitBlocks s.length s).2

/-- Suffix of `s` following the first occurrence of `pat`, or `none` when
`pat` does not occur (the backbone of `re.search` for a literal). -/
def lFindSuffix (pat : List Char) : List Char → Option (List Char)
  | [] => if lPre pat [] then some [] else none
  | c :: r =>
    if lPre pat (c :: r) then some (List.drop pat.length (c :: r))
    else lFindSuffix pat r

/-- Group 1 of Python `re.search(lit + r'\s*(.*?)(?:\n|$)', s)`: after the
first occurrence of the literal, the greedy `\s*` consumes the maximal
whitespace run (newlines included) and the lazy dot-run then always reaches
the next newline or the end of the string, so the capture is the maximal
newline-free run after the whitespace. -/
def reCapture (pat s : List Char) : Option (List Char) :=
  (lFindSuffix pat s).map fun rest =>
    (rest.dropWhile pyIsSpace).takeWhile (fun c => ¬ (c = '\n'))

/-- Raw (label, location) extraction from one service block
(`apply_ml_categorization.py` lines 114-118 and 123, before taxonomy
validation): a block yields a pair exactly when the `Service:` search
matches; the label is the stripped capture, and the location is the stripped
`Blocks/Lots/Units:` capture or `"Not specified"` when that search fails. -/
def blockRawPair (b : List Char) : Option (List Char × List Char) :=
  match reCapture "Service:".data b with
  | none => none
  | some cap =>
    let loc :=
      match reCapture "Blocks/Lots/Units:".data b with
      | none => "Not specified".data
      | some c2 => pyStrip c2
    some (pyStrip cap, loc)

/-- Parsed raw pairs of a categorization response, in block order
(`apply_ml_categorization.py` lines 109-124 without the validation step):
strip the response, split it into service blocks, and collect each block's
raw pair. -/
def rawPairs (s : List Char) : List (List Char × List Char) :=
  (reSplitServiceBlocks (pyStrip s)).filterMap blockRawPair

/-- Python `sep.join(pieces)`. -/
def joinSep (sep : List Char) : List (List Char) → List Char
  | [] => []
  | [b] => b
  | b :: bs => b ++ sep ++ joinSep sep bs

/-- Consolidated map: a Python `dict` as an insertion-ordered association list
with unique keys. -/
abbrev ConsMap : Type := List (List Char × List Char)

/-- Python `service in consolidated_services`. -/
def cmMem (k : List Char) : ConsMap → Bool
  | [] => false
  | p :: r => decide (p.1 = k) || cmMem k r

/-- Python `consolidated_services[service]` (lookup). -/
def cmGet (k : List Char) : ConsMap → Option (List Char)
  | [] => none
  | p :: r => if p.1 = k then some p.2 else cmGet k r

/-- Python `consolidated_services[service] = blocks`: update in place when the
key exists, append otherwise (dict insertion order). -/
def cmSet (k v : List Char) : ConsMap → ConsMap
  | [] => [(k, v)]
  | p :: r => if p.1 = k then (k, v) :: r else p :: cmSet k v r

/-- Default consolidation step (`apply_ml_categorization.py` lines 205-214,
and identically lines 137-145 for AEON's non-Settlement labels): merge a
(label, location) pair into the map; an existing real value gets the new real
location appended after `", "` unless it is already a substring, `"Not
specified"` is never appended over a real value, and a real value overwrites a
stored `"Not specified"`. -/
def defaultMergeStep (m : ConsMap) (pr : List Char × List Char) : ConsMap :=
  match cmGet pr.1 m with
  | some cur =>
    if pr.2 ≠ "Not specified".data ∧ cur ≠ "Not specified".data then
      if lSub pr.2 cur then m
      else cmSet pr.1 (cur ++ ", ".data ++ pr.2) m
    else if pr.2 ≠ "Not specified".data then cmSet pr.1 pr.2 m
    else m
  | none => cmSet pr.1 pr.2 m

/-- Decimal rendering of a natural number (for Python f-string interpolation
of the disambiguation counter). -/
def natDigitsAux : Nat → Nat → List Char → List Char
  | 0, _, acc => acc
  | fuel + 1, n, acc =>
    if n < 10 then Char.ofNat (48 + n) :: acc
    else natDigitsAux fuel (n / 10) (Char.ofNat (48 + n % 10) :: acc)

/-- Decimal digits of a natural number. -/
def natDigits (n : Nat) : List Char :=
  natDigitsAux (n + 1) n []

/-- First free disambiguation counter for the Settlement Repairs family
(`apply_ml_categorization.py` lines 133-135): starting from 1, skip counters
whose key `"Settlement Repairs<count>"` is already in the map.  The Python
`while` loop always terminates within `|map| + 1` probes (the map has finitely
many keys), which the fuel argument makes explicit. -/
def srFreeGo : Nat → Nat → ConsMap → Nat
  | 0, c, _ => c
  | fuel + 1, c, m =>
    if cmMem ("Settlement Repairs".data ++ natDigits c) m then srFreeGo fuel (c + 1) m
    else c

/-- First free Settlement Repairs counter of a map. -/
def srFree (m : ConsMap) : Nat :=
  srFreeGo (m.length + 1) 1 m

/-- AEON consolidation step (`apply_ml_categorization.py` lines 128-145):
labels starting with `"Settlement Repairs"` bypass merging — a first
occurrence keeps its label and a repeated occurrence is stored under
`"Settlement Repairs<count>"` for the first free counter — and all other
labels take the default merge step. -/
def aeonConsStep (m : ConsMap) (pr : List Char × List Char) : ConsMap :=
  if lPre "Settlement Repairs".data pr.1 then
    if !(cmMem pr.1 m) then cmSet pr.1 pr.2 m
    else cmSet ("Settlement Repairs".data ++ natDigits (srFree m)) pr.2 m
  else defaultMergeStep m pr

/-- AEON consolidation of a parsed pair sequence. -/
def aeonConsolidate (ps : List (List Char × List Char)) : ConsMap :=
  ps.foldl aeonConsStep []

/-- AE3 consolidation of a parsed pair sequence (`apply_ml_categorization.py`
lines 205-214). -/
def ae3Consolidate (ps : List (List Char × List Char)) : ConsMap :=
  ps.foldl defaultMergeStep []

/-- Output formatting (`apply_ml_categorization.py` lines 148-152 and
217-221): render each entry as a `Service:`/`Blocks/Lots/Units:` block, join
the blocks with blank lines, and render an empty map as the sentinel
`"Error in categorization"`. -/
def formatServices (m : ConsMap) : List Char :=
  if m = [] then "Error in categorization".data
  else
    joinSep "\n\n".data
      (m.map (fun p => "Service: ".data ++ p.1 ++ "\nBlocks/Lots/Units: ".data ++ p.2))

/-- Exception-path result of `categorize_aeon`/`categorize_ae3`
(`apply_ml_categorization.py` lines 156 and 225):
`f"Error in categorization: {str(e)}"`. -/
def categorizeErrorResult (msg : List Char) : List Char :=
  "Error in categorization: ".data ++ msg

/-- Pure response-processing core of `categorize_aeon`
(`apply_ml_categorization.py` lines 108-152): split the model response into
service blocks, extract and validate each block's pair, consolidate, and
format. -/
def categorize_aeon_pure (result : List Char) : List Char :=
  formatServices (aeonConsolidate
    ((rawPairs result).map (fun p => (aeonValidateLabel p.1, p.2))))

/-- Pure response-processing core of `categorize_ae3`
(`apply_ml_categorization.py` lines 176-221): like AEON but with the AE3
substitution rules before validation and no Settlement Repairs special case. -/
def categorize_ae3_pure (result : List Char) : List Char :=
  formatServices (ae3Consolidate
    ((rawPairs result).map (fun p => (ae3ValidateLabel (ae3Substitute p.1), p.2))))

/-- Modelled from the spec's layout contract (§4.2), as amended to the source
behaviour of `extract_services`: the four service slots as a data table of
field indices `(serviceType, date, quantity, hours, contDate, contQuantity,
contHours)`. -/
def slotTable : List (Int × Int × Int × Int × Int × Int × Int) :=
  [(8, 9, 10, 11, 12, 13, 14),
   (15, 16, 17, 18, 19, 20, 21),
   (22, 23, 24, 25, 26, 27, 28),
   (29, 30, 31, 32, 33, 34, 35)]

/-- Modelled from the spec's layout contract (§4.2), as amended: a slot emits
its primary line exactly when the service-type field is present, and its
continuation line exactly when the service-type field and the continuation
date field are both present (the date field of the primary line is never
consulted for suppression). -/
def slotLines (f : FieldMap) (e : Int × Int × Int × Int × Int × Int × Int) :
    List ServiceLineItem :=
  (if linePresent (f e.1) then [mkItem f e.1 e.2.1 e.2.2.1 e.2.2.2.1] else [])
    ++ (if linePresent (f e.1) && linePresent (f e.2.2.2.2.1) then
      [mkItem f e.1 e.2.2.2.2.1 e.2.2.2.2.2.1 e.2.2.2.2.2.2] else [])

/-- Modelled from the spec's layout contract (§4.2), as amended: the assembled
service line items, slot by slot in table order. -/
def assembleSpecModel (f : FieldMap) : List ServiceLineItem :=
  (slotTable.map (slotLines f)).flatten

theorem digit_toNat_bounds {c : Char} (h : isDigitChar c = true) :
    48 ≤ c.toNat ∧ c.toNat ≤ 57 := by
  simpa [isDigitChar] using h

theorem digit_not_space {c : Char} (h : isDigitChar c = true) : pyIsSpace c = false := by
  obtain ⟨h1, h2⟩ := digit_toNat_bounds h
  by_contra hn
  rw [Bool.not_eq_false, pyIsSpace] at hn
  simp only [Bool.or_eq_true, beq_iff_eq] at hn
  rcases hn with (((((rfl | rfl) | rfl) | rfl) | rfl) | rfl) <;> simp_all

theorem digit_ne {c x : Char} (h : isDigitChar c = true) (hx : isDigitChar x = false) :
    ¬ (c = x) := by
  intro he
  subst he
  rw [h] at hx
  simp at hx

theorem rstrip_all_nonspace {s : List Char} (h : ∀ x ∈ s, pyIsSpace x = false) :
    rstripChars s = s := by
  induction s with
  | nil => rfl
  | cons c r ih =>
    have hc : pyIsSpace c = false := h c (List.mem_cons_self _ _)
    have hr : rstripChars r = r := ih (fun x hx => h x (List.mem_cons_of_mem _ hx))
    rw [rstripChars, hr]
    cases r with
    | nil => simp [hc]
    | cons x xs => rfl

theorem dropWhile_all_nonsat {p : Char → Bool} {s : List Char}
    (h : ∀ x ∈ s, p x = false) : s.dropWhile p = s := by
  cases s with
  | nil => rfl
  | cons c r => simp [List.dropWhile_cons, h c (List.mem_cons_self _ _)]

theorem pyStrip_all_nonspace {s : List Char} (h : ∀ x ∈ s, pyIsSpace x = false) :
    pyStrip s = s := by
  rw [pyStrip, dropWhile_all_nonsat h, rstrip_all_nonspace h]

theorem rstrip_anchor {b : Char} (hb : pyIsSpace b = false) (xs ys : List Char) :
    rstripChars (xs ++ b :: ys) = xs ++ b :: rstripChars ys := by
  induction xs with
  | nil =>
    simp only [List.nil_append]
    rw [rstripChars]
    cases hq : rstripChars ys with
    | nil => simp [hb]
    | cons x t => rfl
  | cons a rest ih =>
    simp only [List.cons_append]
    rw [rstripChars, ih]
    cases rest with
    | nil => rfl
    | cons r1 r2 => rfl

theorem dropWhile_anchor {p : Char → Bool} {b : Char} (hb : p b = false) (xs ys : List Char) :
    (xs ++ b :: ys).dropWhile p = xs.dropWhile p ++ b :: ys := by
  induction xs with
  | nil => simp [List.dropWhile_cons, hb]
  | cons a rest ih =>
    by_cases ha : p a
    · simp [List.dropWhile_cons, ha, ih]
    · simp [List.dropWhile_cons, ha]

theorem takeWhile_anchor {p : Char → Bool} {b : Char} (hb : p b = false) {xs : List Char}
    (hxs : ∀ x ∈ xs, p x = true) (ys : List Char) :
    (xs ++ b :: ys).takeWhile p = xs := by
  induction xs with
  | nil => simp [List.takeWhile_cons, hb]
  | cons a rest ih =>
    have ha : p a = true := hxs a (List.mem_cons_self _ _)
    simp [List.takeWhile_cons, ha, ih (fun x hx => hxs x (List.mem_cons_of_mem _ hx))]

theorem splitFirst_anchor {c : Char} {xs : List Char} (h : c ∉ xs) (ys : List Char) :
    splitFirst c (xs ++ c :: ys) = some (xs, ys) := by
  induction xs with
  | nil => simp [splitFirst]
  | cons a rest ih =>
    have ha : ¬ (a = c) := fun he => h (he ▸ List.mem_cons_self _ _)
    have ih2 := ih (fun hm => h (List.mem_cons_of_mem _ hm))
    simp [splitFirst, ha, ih2]

theorem rstrip_dropWhile_comm (s : List Char) :
    (rstripChars s).dropWhile pyIsSpace = rstripChars (s.dropWhile pyIsSpace) := by
  induction s with
  | nil => rfl
  | cons c r ih =>
    by_cases hc : pyIsSpace c
    · cases hq : rstripChars r with
      | nil =>
        have ih2 := ih
        rw [hq] at ih2
        simp [rstripChars, hq, List.dropWhile_cons, hc, ← ih2]
      | cons x xs =>
        simp [rstripChars, hq, List.dropWhile_cons, hc, ← ih]
    · have hcf : pyIsSpace c = false := by simpa using hc
      cases hq : rstripChars r with
      | nil => simp [rstripChars, hq, List.dropWhile_cons, hcf]
      | cons x xs => simp [rstripChars, hq, List.dropWhile_cons, hcf]

theorem rstrip_idem (s : List Char) : rstripChars (rstripChars s) = rstripChars s := by
  induction s with
  | nil => rfl
  | cons c r ih =>
    rw [rstripChars]
    cases hq : rstripChars r with
    | nil =>
      by_cases hc : pyIsSpace c
      · simp [hc, rstripChars]
      · simp [hc, rstripChars]
    | cons x xs =>
      rw [hq] at ih
      rw [rstripChars, ih]

theorem pyStrip_rstrip (s : List Char) : pyStrip (rstripChars s) = pyStrip s := by
  rw [pyStrip, rstrip_dropWhile_comm, rstrip_idem, ← rstrip_dropWhile_comm, pyStrip,
    rstrip_dropWhile_comm]

theorem goDigits_all_digits {r : List Char} (h : ∀ x ∈ r, isDigitChar x = true) (acc : Nat) :
    goDigits acc r = some (r.foldl (fun a c => 10 * a + digitVal c) acc) := by
  induction r generalizing acc with
  | nil => rfl
  | cons c t ih =>
    have hc : isDigitChar c = true := h c (List.mem_cons_self _ _)
    have hne : ¬ (c = '_') := digit_ne hc (by decide)
    rw [goDigits.eq_def]
    simp [hne, hc, ih (fun x hx => h x (List.mem_cons_of_mem _ hx))]

theorem pyInt_digits {ds : List Char} (hne : ds ≠ [])
    (h : ∀ x ∈ ds, isDigitChar x = true) : pyInt ds = some (digitsToNat ds : Int) := by
  cases ds with
  | nil => exact absurd rfl hne
  | cons c r =>
    have hc : isDigitChar c = true := h c (List.mem_cons_self _ _)
    rw [pyInt, if_neg (digit_ne hc (by decide)), if_neg (digit_ne hc (by decide)),
      digitsVal, if_pos hc, goDigits_all_digits (fun x hx => h x (List.mem_cons_of_mem _ hx))]
    simp [digitsToNat, List.foldl_cons]

theorem foldl_parseStep_skip {lines : List (List Char)} {i : Int}
    (h : ∀ l ∈ lines, lineIdx l ≠ some i) (m : FieldMap) :
    (lines.foldl parseStep m) i = m i := by
  induction lines generalizing m with
  | nil => rfl
  | cons l rest ih =>
    rw [List.foldl_cons, ih (fun x hx => h x (List.mem_cons_of_mem _ hx))]
    have hl := h l (List.mem_cons_self _ _)
    rw [parseStep]
    cases he : lineEntry l with
    | none => rfl
    | some kv =>
      have hki : ¬ (i = kv.1) := by
        intro hk
        exact hl (by simp [lineIdx, he, hk])
      simp [fmSet, hki]

/-- C10: `safe_int` returns null when the value is `None`, empty, `"N/A"` or
fails integer parsing; a parsed integer strictly below 100 is shifted by 2000
(so `"18"` yields 2018) and larger parsed integers are returned unchanged (so
`"2018"` yields 2018); the function is total. -/
theorem safe_int_spec :
    safe_int none = none ∧
    safe_int (some []) = none ∧
    safe_int (some "N/A".data) = none ∧
    (∀ s : List Char, pyInt (pyStrip s) = none → safe_int (some s) = none) ∧
    (∀ (s : List Char) (n : Int), pyInt (pyStrip s) = some n →
      safe_int (some s) = some (if n < 100 then n + 2000 else n)) ∧
    safe_int (some "18".data) = some 2018 ∧
    safe_int (some "2018".data) = some 2018 := by
  refine ⟨rfl, rfl, by decide, ?_, ?_, by decide, by decide⟩
  · intro s h
    by_cases h1 : s = []
    · simp [safe_int, h1]
    · by_cases h2 : s = "N/A".data
      · simp [safe_int, h2]
      · simp [safe_int, h1, h2, h]
  · intro s n h
    have h1 : ¬ (s = []) := by
      intro he
      subst he
      rw [show pyInt (pyStrip []) = none from rfl] at h
      exact Option.noConfusion h
    have h2 : ¬ (s = "N/A".data) := by
      intro he
      subst he
      rw [show pyInt (pyStrip "N/A".data) = none from by decide] at h
      exact Option.noConfusion h
    simp [safe_int, h1, h2, h]

/-- C10 witness: concrete two-digit and four-digit years through the theorem. -/
theorem safe_int_spec_witness :
    safe_int (some "18".data) = some 2018 ∧ safe_int (some "77".data) = some 2077 := by
  constructor
  · exact safe_int_spec.2.2.2.2.2.1
  · have h := safe_int_spec.2.2.2.2.1 "77".data 77 (by decide)
    simpa using h

/-- C2 counterexample: the unrecognized label `"Digging A Trench"` is rewritten
with a space before the parenthesis, `"Miscellaneous (Digging A Trench)"`, not
to the claimed exact string `"Miscellaneous(Digging A Trench)"`. -/
theorem validate_format_counterexample :
    aeonValidateLabel "Digging A Trench".data = "Miscellaneous (Digging A Trench)".data ∧
    ¬ (aeonValidateLabel "Digging A Trench".data = "Miscellaneous(Digging A Trench)".data) := by
  decide

/-- C2 as amended: the validators preserve verbatim any label starting with a
profile escape label (AEON: `"Settlement Repairs"` and `"Miscellaneous"`; AE3:
`"Miscellaneous"`), and rewrite any other label not in the profile's category
list to `"<catch-all> (<original>)"` — with a single space between the
catch-all label and the parenthesized original. -/
theorem validateLabel_amended : ∀ l : List Char,
    (lPre "Settlement Repairs".data l = true → aeonValidateLabel l = l) ∧
    (lPre "Miscellaneous".data l = true → aeonValidateLabel l = l) ∧
    (lPre "Settlement Repairs".data l = false → lPre "Miscellaneous".data l = false →
      l ∉ AEON_CATEGORIES → aeonValidateLabel l = "Miscellaneous (".data ++ l ++ ")".data) ∧
    (lPre "Miscellaneous".data l = true → ae3ValidateLabel l = l) ∧
    (lPre "Miscellaneous".data l = false → l ∉ AE3_CATEGORIES →
      ae3ValidateLabel l = "Miscellaneous (".data ++ l ++ ")".data) := by
  intro l
  refine ⟨?_, ?_, ?_, ?_, ?_⟩
  · intro h
    simp [aeonValidateLabel, h]
  · intro h
    simp [aeonValidateLabel, h]
  · intro h1 h2 h3
    simp [aeonValidateLabel, h1, h2, h3]
  · intro h
    simp [ae3ValidateLabel, h]
  · intro h1 h2
    simp [ae3ValidateLabel, h1, h2]

/-- C2 witness: the amended rewrite and the escape preservation at concrete
labels. -/
theorem validateLabel_amended_witness :
    aeonValidateLabel "Digging A Trench".data = "Miscellaneous (Digging A Trench)".data ∧
    aeonValidateLabel "Settlement Repairs - Lot 5".data = "Settlement Repairs - Lot 5".data := by
  constructor
  · exact (validateLabel_amended "Digging A Trench".data).2.2.1 (by decide) (by decide)
      (by decide)
  · exact (validateLabel_amended "Settlement Repairs - Lot 5".data).1 (by decide)

/-- C3: the default consolidation merge — in-order append of a distinct real
location after a comma, no append when the new location is already a verbatim
substring of the accumulated value, the sentinel never appended over a real
value, and a real value overwriting a stored sentinel. -/
theorem consolidator_merge_spec : ∀ L a b : List Char,
    (a ≠ "Not specified".data → b ≠ "Not specified".data → lSub b a = false →
      ae3Consolidate [(L, a), (L, b)] = [(L, a ++ ", ".data ++ b)]) ∧
    (a ≠ "Not specified".data → b ≠ "Not specified".data → lSub b a = true →
      ae3Consolidate [(L, a), (L, b)] = [(L, a)]) ∧
    (a ≠ "Not specified".data →
      ae3Consolidate [(L, a), (L, "Not specified".data)] = [(L, a)]) ∧
    (b ≠ "Not specified".data →
      ae3Consolidate [(L, "Not specified".data), (L, b)] = [(L, b)]) := by
  intro L a b
  refine ⟨?_, ?_, ?_, ?_⟩
  · intro ha hb hs
    simp [ae3Consolidate, defaultMergeStep, cmGet, cmSet, ha, hb, hs]
  · intro ha hb hs
    simp [ae3Consolidate, defaultMergeStep, cmGet, cmSet, ha, hb, hs]
  · intro ha
    simp [ae3Consolidate, defaultMergeStep, cmGet, cmSet, ha]
  · intro hb
    simp [ae3Consolidate, defaultMergeStep, cmGet, cmSet, hb]

/-- C3 witness: the spec's round-trip example (two distinct lots joined by a
comma) and a duplicated location not appended twice. -/
theorem consolidator_merge_spec_witness :
    ae3Consolidate [("Loading Fill From Lots".data, "Lot 67".data),
        ("Loading Fill From Lots".data, "Lot 68".data)]
      = [("Loading Fill From Lots".data, "Lot 67, Lot 68".data)] ∧
    ae3Consolidate [("Grade".data, "Lot 1".data), ("Grade".data, "Lot 1".data)]
      = [("Grade".data, "Lot 1".data)] := by
  constructor
  · have h := (consolidator_merge_spec "Loading Fill From Lots".data "Lot 67".data
      "Lot 68".data).1 (by decide) (by decide) (by decide)
    simpa using h
  · exact (consolidator_merge_spec "Grade".data "Lot 1".data "Lot 1".data).2.1
      (by decide) (by decide) (by decide)

/-- C4 counterexample: three occurrences of the prefixed label
`"Settlement Repairs X"` get the keys `"Settlement Repairs X"`,
`"Settlement Repairs1"` and `"Settlement Repairs2"` — the numeric suffix is
attached to the family prefix, not appended to the label (which would give
`"Settlement Repairs X1"`). -/
theorem settlement_suffix_counterexample :
    aeonConsolidate [("Settlement Repairs X".data, "L1".data),
        ("Settlement Repairs X".data, "L2".data), ("Settlement Repairs X".data, "L3".data)]
      = [("Settlement Repairs X".data, "L1".data), ("Settlement Repairs1".data, "L2".data),
         ("Settlement Repairs2".data, "L3".data)] ∧
    ¬ ("Settlement Repairs1".data = "Settlement Repairs X1".data) := by
  decide

/-- C4 as amended: every occurrence of a `"Settlement Repairs"`-prefixed label
bypasses the default merge; the first occurrence keeps the bare label and each
subsequent occurrence is stored under `"Settlement Repairs<count>"` for the
first free counter starting at 1 — the suffix attaches to the family prefix,
not to the full label — so three occurrences of a family label distinct from
the generated keys yield three distinct entries, each keeping its own
location. -/
theorem settlement_family_amended : ∀ lab l1 l2 l3 : List Char,
    lPre "Settlement Repairs".data lab = true →
    lab ≠ "Settlement Repairs1".data → lab ≠ "Settlement Repairs2".data →
    aeonConsolidate [(lab, l1), (lab, l2), (lab, l3)]
      = [(lab, l1), ("Settlement Repairs1".data, l2), ("Settlement Repairs2".data, l3)] := by
  intro lab l1 l2 l3 hp h1 h2
  have hk1 : "Settlement Repairs".data ++ natDigits 1 = "Settlement Repairs1".data := by decide
  have hk2 : "Settlement Repairs".data ++ natDigits 2 = "Settlement Repairs2".data := by decide
  have hne12 : ¬ ("Settlement Repairs1".data = "Settlement Repairs2".data) := by decide
  have h1s : ¬ (lab = "Settlement Repairs1".data) := h1
  have h2s : ¬ (lab = "Settlement Repairs2".data) := h2
  simp [aeonConsolidate, aeonConsStep, hp, cmMem, cmSet, srFree, srFreeGo, hk1, hk2,
    h1s, h2s, hne12]

/-- C4 witness: three occurrences of the bare family label through the
theorem. -/
theorem settlement_family_amended_witness :
    aeonConsolidate [("Settlement Repairs".data, "Lot 1".data),
        ("Settlement Repairs".data, "Lot 2".data), ("Settlement Repairs".data, "Lot 3".data)]
      = [("Settlement Repairs".data, "Lot 1".data), ("Settlement Repairs1".data, "Lot 2".data),
         ("Settlement Repairs2".data, "Lot 3".data)] :=
  settlement_family_amended "Settlement Repairs".data "Lot 1".data "Lot 2".data "Lot 3".data
    (by decide) (by decide) (by decide)

/-- C9: an all-empty service table yields the `None` marker and never a
populated-but-empty sequence; a categorization response with no parsed blocks
formats to the non-empty sentinel `"Error in categorization"`, which differs
from every exception-path result `"Error in categorization: <msg>"`. -/
theorem empty_result_markers :
    (∀ f : FieldMap, extract_services f ≠ some []) ∧
    (∀ s : List Char, rawPairs s = [] →
      categorize_aeon_pure s = "Error in categorization".data) ∧
    "Error in categorization".data ≠ [] ∧
    (∀ msg : List Char, categorizeErrorResult msg ≠ "Error in categorization".data) := by
  refine ⟨?_, ?_, by decide, ?_⟩
  · intro f
    rw [extract_services]
    split
    · simp
    · next hne => simp [hne]
  · intro s h
    rw [categorize_aeon_pure, h]
    rfl
  · intro msg heq
    have h1 := congrArg List.length heq
    rw [categorizeErrorResult, List.length_append] at h1
    rw [show ("Error in categorization: ".data).length = 25 from by decide,
      show ("Error in categorization".data).length = 23 from by decide] at h1
    omega

/-- C9 witness: concrete instances through the theorem — no service fields at
all, and a response with no `Service:` marker. -/
theorem empty_result_markers_witness :
    extract_services (fun _ => none) ≠ some [] ∧
    categorize_aeon_pure "no services were found".data = "Error in categorization".data := by
  constructor
  · exact empty_result_markers.1 (fun _ => none)
  · exact empty_result_markers.2.1 "no services were found".data (by decide)

theorem chunk_split (a b : Bool) (x y : ServiceLineItem) :
    (if a then x :: (if b then [y] else []) else [])
      = (if a then [x] else []) ++ (if a && b then [y] else []) := by
  cases a <;> cases b <;> simp

/-- C1 counterexample: with `Service1 = "N/A"` and a real continuation date
`D2`, the assembler emits nothing at all — the suppressed primary line also
suppresses the slot's continuation line, which the claim says is evaluated
independently; and with a real `Service1` but `D1 = "N/A"`, the primary line
is still emitted carrying the placeholder date — the date position does not
suppress a line. -/
theorem service_slot_counterexample :
    extract_services (fun i => if i = 8 then some "N/A".data
      else if i = 12 then some "6/2".data else if i = 13 then some "4".data
      else if i = 14 then some "5".data else none) = none ∧
    extract_services (fun i => if i = 8 then some "Grading".data
      else if i = 9 then some "N/A".data else none)
      = some [{ service_type := "Grading".data, date := "N/A".data, quantity := none,
                hours := none }] := by
  constructor
  · decide
  · decide

/-- C1 as amended: a slot's primary line is suppressed exactly when its
service-type position is absent, blank or `"N/A"` (its date position is never
consulted, so a placeholder date is carried through), and a slot's
continuation line is emitted exactly when the primary line is emitted and the
continuation date position is present — a suppressed primary line prevents the
slot's continuation from being considered; output order is slot by slot,
primary before continuation, and an empty result is returned as the `None`
marker exactly when all four service-type positions are absent. -/
theorem extract_services_amended : ∀ f : FieldMap,
    extract_services f
      = (if assembleSpecModel f = [] then none else some (assembleSpecModel f)) ∧
    (extract_services f = none ↔
      (linePresent (f 8) || linePresent (f 15) || linePresent (f 22) || linePresent (f 29))
        = false) := by
  intro f
  constructor
  · simp only [extract_services, assembleSpecModel, slotTable, slotLines, List.map_cons,
      List.map_nil, List.flatten_cons, List.flatten_nil, chunk_split, List.append_assoc,
      List.append_nil]
  · cases h8 : linePresent (f 8) <;> cases h15 : linePresent (f 15) <;>
      cases h22 : linePresent (f 22) <;> cases h29 : linePresent (f 29) <;>
      simp [extract_services, h8, h15, h22, h29]

/-- C1 witness: the amended equation evaluated at a concrete field map with a
populated first slot. -/
theorem extract_services_amended_witness :
    extract_services (fun i => if i = 8 then some "Foreman".data else none)
      = (if assembleSpecModel (fun i => if i = 8 then some "Foreman".data else none) = []
         then none
         else some (assembleSpecModel (fun i => if i = 8 then some "Foreman".data else none))) :=
  (extract_services_amended (fun i => if i = 8 then some "Foreman".data else none)).1

theorem lPre_decomp {p s : List Char} (h : lPre p s = true) :
    s = p ++ s.drop p.length := by
  induction p generalizing s with
  | nil => simp
  | cons a p2 ih =>
    cases s with
    | nil => simp [lPre] at h
    | cons b s2 =>
      rw [lPre, Bool.and_eq_true, beq_iff_eq] at h
      obtain ⟨rfl, h2⟩ := h
      simpa using ih h2

theorem filter_digit_goReplace {p : List Char} (hd : ∀ c ∈ p, isDigitChar c = false) :
    ∀ (fuel : Nat) (s : List Char),
      (goReplace fuel p [] s).filter isDigitChar = s.filter isDigitChar := by
  intro fuel
  induction fuel with
  | zero => intro s; rfl
  | succ n ih =>
    intro s
    cases s with
    | nil => rfl
    | cons c rest =>
      rw [goReplace]
      by_cases hp : lPre p (c :: rest) = true
      · rw [if_pos hp, List.nil_append, ih]
        have hdec := lPre_decomp hp
        have hfp : p.filter isDigitChar = [] := List.filter_eq_nil_iff.mpr (by
          intro a ha
          simp [hd a ha])
        conv_rhs => rw [hdec]
        rw [List.filter_append, hfp, List.nil_append]
      · rw [if_neg hp]
        by_cases hc : isDigitChar c
        · rw [List.filter_cons, List.filter_cons, if_pos hc, if_pos hc, ih]
        · rw [List.filter_cons, List.filter_cons, if_neg hc, if_neg hc, ih]

/-- C8: the hours strings `"10 each"`, `"10 /each"`, `"10 man"` and `"10"` all
coerce to the numeric value 10; unit-suffix stripping never alters the digit
characters of the value; and a value whose stripped form still fails numeric
coercion becomes null rather than an error. -/
theorem clean_hours_spec :
    safe_float (clean_hours "10 each".data) = some 10 ∧
    safe_float (clean_hours "10 /each".data) = some 10 ∧
    safe_float (clean_hours "10 man".data) = some 10 ∧
    safe_float (clean_hours "10".data) = some 10 ∧
    (∀ s : List Char, (clean_hours s).filter isDigitChar = s.filter isDigitChar) ∧
    (∀ s : List Char, pyFloat (pyStrip (clean_hours s)) = none →
      safe_float (clean_hours s) = none) := by
  refine ⟨by decide, by decide, by decide, by decide, ?_, ?_⟩
  · intro s
    by_cases hs : s = []
    · simp [clean_hours, hs]
    · rw [clean_hours, if_neg hs]
      simp only [pyReplace]
      rw [filter_digit_goReplace (by decide), filter_digit_goReplace (by decide),
        filter_digit_goReplace (by decide), filter_digit_goReplace (by decide),
        filter_digit_goReplace (by decide), filter_digit_goReplace (by decide)]
  · intro s h
    rw [safe_float]
    by_cases h1 : clean_hours s = []
    · simp [h1]
    · rw [if_neg h1]
      by_cases h2 : clean_hours s = "N/A".data
      · simp [h2]
      · rw [if_neg h2, h]

/-- C8 witness: the digit-preservation and failure clauses of the theorem at
concrete inputs. -/
theorem clean_hours_spec_witness :
    (clean_hours "10 /each".data).filter isDigitChar = ("10 /each".data).filter isDigitChar ∧
    safe_float (clean_hours "ten each".data) = none := by
  constructor
  · exact clean_hours_spec.2.2.2.2.1 "10 /each".data
  · exact clean_hours_spec.2.2.2.2.2 "ten each".data (by decide)

theorem joinSep_cons_head (sep : List Char) (c : Char) (b : List Char)
    (bs : List (List Char)) :
    joinSep sep ((c :: b) :: bs) = c :: joinSep sep (b :: bs) := by
  cases bs with
  | nil => rfl
  | cons h t => simp [joinSep]

theorem lPre_head_cons {a : Char} {pat rest : List Char}
    (h : lPre (a :: pat) rest = true) :
    ∃ r2, rest = a :: r2 ∧ lPre pat r2 = true := by
  cases rest with
  | nil => simp [lPre] at h
  | cons b r2 =>
    rw [lPre, Bool.and_eq_true, beq_iff_eq] at h
    exact ⟨r2, by rw [h.1], h.2⟩

theorem lPre_refl (s : List Char) : lPre s s = true := by
  induction s with
  | nil => rfl
  | cons c r ih => simp [lPre, ih]

theorem lPre_trans {x y z : List Char} (h1 : lPre x y = true) (h2 : lPre y z = true) :
    lPre x z = true := by
  induction x generalizing y z with
  | nil => rfl
  | cons a x2 ih =>
    obtain ⟨y2, rfl, hy⟩ := lPre_head_cons h1
    obtain ⟨z2, rfl, hz⟩ := lPre_head_cons h2
    simp [lPre, ih hy hz]

theorem goSplit_reconstruct : ∀ (fuel : Nat) (s : List Char),
    joinSep "\n\n".data ((goSplitBlocks fuel s).1 :: (goSplitBlocks fuel s).2) = s := by
  intro fuel
  induction fuel with
  | zero => intro s; rfl
  | succ n ih =>
    intro s
    cases s with
    | nil => rfl
    | cons c rest =>
      rw [goSplitBlocks]
      by_cases hcond : (decide (c = '\n') && lPre ('\n' :: "Service:".data) rest) = true
      · rw [if_pos hcond]
        rw [Bool.and_eq_true, decide_eq_true_eq] at hcond
        obtain ⟨rfl, hpre⟩ := hcond
        obtain ⟨r2, rfl, _⟩ := lPre_head_cons hpre
        have hdrop : (('\n' : Char) :: r2).drop 1 = r2 := rfl
        rw [hdrop]
        simp only [joinSep, List.nil_append]
        have := ih r2
        cases hq : (goSplitBlocks n r2).2 with
        | nil =>
          rw [hq] at this
          simp only [joinSep] at this
          simp [joinSep, this]
        | cons x xs =>
          rw [hq] at this
          simp only [joinSep] at this ⊢
          simp [this]
      · rw [if_neg hcond]
        simp only
        rw [joinSep_cons_head, ih]

theorem goSplit_first_pre : ∀ (fuel : Nat) (pat s : List Char),
    (∀ c ∈ pat, ¬ (c = '\n')) → lPre pat s = true →
    lPre pat (goSplitBlocks fuel s).1 = true := by
  intro fuel
  induction fuel with
  | zero => intro pat s _ h; exact h
  | succ n ih =>
    intro pat s hnl h
    cases s with
    | nil =>
      cases pat with
      | nil => rfl
      | cons a p2 => simp [lPre] at h
    | cons c rest =>
      rw [goSplitBlocks]
      by_cases hcond : (decide (c = '\n') && lPre ('\n' :: "Service:".data) rest) = true
      · rw [if_pos hcond]
        rw [Bool.and_eq_true, decide_eq_true_eq] at hcond
        cases pat with
        | nil => rfl
        | cons a p2 =>
          rw [lPre, Bool.and_eq_true, beq_iff_eq] at h
          exact absurd (h.1.trans hcond.1) (hnl a (List.mem_cons_self _ _))
      · rw [if_neg hcond]
        cases pat with
        | nil => rfl
        | cons a p2 =>
          rw [lPre, Bool.and_eq_true, beq_iff_eq] at h
          obtain ⟨ha, hp2⟩ := h
          subst ha
          simp only [lPre, beq_self_eq_true, Bool.true_and]
          exact ih p2 rest (fun x hx => hnl x (List.mem_cons_of_mem _ hx)) hp2

theorem goSplit_head_starts : ∀ (fuel : Nat) (s : List Char),
    lPre (goSplitBlocks fuel s).1 s = true := by
  intro fuel
  induction fuel with
  | zero => intro s; exact lPre_refl s
  | succ n ih =>
    intro s
    cases s with
    | nil => rfl
    | cons c rest =>
      rw [goSplitBlocks]
      by_cases hcond : (decide (c = '\n') && lPre ('\n' :: "Service:".data) rest) = true
      · rw [if_pos hcond]
        rfl
      · rw [if_neg hcond]
        simp [lPre, ih rest]

theorem lSub_cons (pat : List Char) (c : Char) (r : List Char) :
    lSub pat (c :: r) = (lPre pat (c :: r) || lSub pat r) := rfl

theorem goSplit_tail_service : ∀ (fuel : Nat) (s : List Char), s.length ≤ fuel →
    ∀ b ∈ (goSplitBlocks fuel s).2, lPre "Service:".data b = true := by
  intro fuel
  induction fuel with
  | zero =>
    intro s hle b hb
    rw [Nat.le_zero, List.length_eq_zero] at hle
    subst hle
    simp [goSplitBlocks] at hb
  | succ n ih =>
    intro s hle b hb
    cases s with
    | nil => simp [goSplitBlocks] at hb
    | cons c rest =>
      rw [goSplitBlocks] at hb
      by_cases hcond : (decide (c = '\n') && lPre ('\n' :: "Service:".data) rest) = true
      · rw [if_pos hcond] at hb
        rw [Bool.and_eq_true, decide_eq_true_eq] at hcond
        obtain ⟨r2, hr, hpre⟩ := lPre_head_cons hcond.2
        subst hr
        simp only [List.drop_succ_cons, List.drop_zero] at hb
        simp only [List.mem_cons] at hb
        rcases hb with rfl | hb
        · exact goSplit_first_pre n "Service:".data r2 (by decide) hpre
        · have hlen : r2.length ≤ n := by
            simp only [List.length_cons] at hle
            omega
          exact ih r2 hlen b hb
      · rw [if_neg hcond] at hb
        simp only at hb
        have hlen : rest.length ≤ n := by
          simp only [List.length_cons] at hle
          omega
        exact ih rest hlen b hb

theorem goSplit_no_marker : ∀ (fuel : Nat) (s : List Char), s.length ≤ fuel →
    ∀ b ∈ (goSplitBlocks fuel s).1 :: (goSplitBlocks fuel s).2,
      lSub "\n\nService:".data b = false := by
  intro fuel
  induction fuel with
  | zero =>
    intro s hle b hb
    rw [Nat.le_zero, List.length_eq_zero] at hle
    subst hle
    simp only [goSplitBlocks, List.mem_cons, List.not_mem_nil, or_false] at hb
    subst hb
    rfl
  | succ n ih =>
    intro s hle b hb
    cases s with
    | nil =>
      simp only [goSplitBlocks, List.mem_cons, List.not_mem_nil, or_false] at hb
      subst hb
      rfl
    | cons c rest =>
      rw [goSplitBlocks] at hb
      by_cases hcond : (decide (c = '\n') && lPre ('\n' :: "Service:".data) rest) = true
      · rw [if_pos hcond] at hb
        rw [Bool.and_eq_true, decide_eq_true_eq] at hcond
        obtain ⟨r2, hr, hpre⟩ := lPre_head_cons hcond.2
        subst hr
        simp only [List.drop_succ_cons, List.drop_zero, List.mem_cons] at hb
        rcases hb with rfl | hb
        · rfl
        · have hlen : r2.length ≤ n := by
            simp only [List.length_cons] at hle
            omega
          exact ih r2 hlen b (List.mem_cons.mpr hb)
      · rw [if_neg hcond] at hb
        simp only [List.mem_cons] at hb
        have hlen : rest.length ≤ n := by
          simp only [List.length_cons] at hle
          omega
        rcases hb with rfl | hb
        · rw [lSub_cons, Bool.or_eq_false_iff]
          constructor
          · by_contra hp
            rw [Bool.not_eq_false] at hp
            obtain ⟨r3, hr3, hp2⟩ := lPre_head_cons hp
            injection hr3 with hc1 hc2
            have hpr : lPre ('\n' :: "Service:".data) rest = true := by
              subst hc2
              exact lPre_trans hp2 (goSplit_head_starts n rest)
            rw [Bool.and_eq_true, decide_eq_true_eq] at hcond
            exact hcond ⟨hc1, hpr⟩
          · exact ih rest hlen (goSplitBlocks n rest).1 (List.mem_cons_self _ _)
        · exact ih rest hlen b (List.mem_cons_of_mem _ hb)

theorem lFindSuffix_none_iff (pat : List Char) : ∀ s : List Char,
    lFindSuffix pat s = none ↔ lSub pat s = false := by
  intro s
  induction s with
  | nil =>
    by_cases h : lPre pat [] = true
    · simp [lFindSuffix, h, lSub]
    · simp only [Bool.not_eq_true] at h
      simp [lFindSuffix, h, lSub]
  | cons c r ih =>
    by_cases h : lPre pat (c :: r) = true
    · simp [lFindSuffix, h, lSub_cons]
    · simp only [Bool.not_eq_true] at h
      simp [lFindSuffix, h, lSub_cons, ih]

/-- C5: the categorization response parser splits exactly at blank-line
boundaries followed by `Service:` — the blocks reassemble to the text with
`"\n\n"` separators, every later block starts with `Service:`, and no block
contains an interior split point (so a plain blank line does not split) — a
block contributes a pair exactly when it contains `Service:`, the raw pairs
are the blocks' pairs in block order, and a block with a service line but no
location line gets the location `"Not specified"`. -/
theorem categorization_parse_spec : ∀ s b : List Char,
    joinSep "\n\n".data (reSplitServiceBlocks s) = s ∧
    (∀ t ∈ (reSplitServiceBlocks s).tail, lPre "Service:".data t = true) ∧
    (∀ t ∈ reSplitServiceBlocks s, lSub "\n\nService:".data t = false) ∧
    rawPairs s = (reSplitServiceBlocks (pyStrip s)).filterMap blockRawPair ∧
    (blockRawPair b = none ↔ lSub "Service:".data b = false) ∧
    (lSub "Service:".data b = true → lSub "Blocks/Lots/Units:".data b = false →
      (blockRawPair b).map Prod.snd = some "Not specified".data) := by
  intro s b
  refine ⟨goSplit_reconstruct s.length s, ?_, ?_, rfl, ?_, ?_⟩
  · intro t ht
    exact goSplit_tail_service s.length s (Nat.le_refl _) t ht
  · intro t ht
    exact goSplit_no_marker s.length s (Nat.le_refl _) t ht
  · rw [blockRawPair.eq_def, reCapture]
    cases hf : lFindSuffix "Service:".data b with
    | none =>
      rw [(lFindSuffix_none_iff "Service:".data b).mp hf]
      simp
    | some suf =>
      have hnn : ¬ (lFindSuffix "Service:".data b = none) := by simp [hf]
      rw [lFindSuffix_none_iff] at hnn
      simp only [Bool.not_eq_false] at hnn
      simp [hnn]
  · intro hs hb
    rw [blockRawPair.eq_def, reCapture, reCapture]
    cases hf : lFindSuffix "Service:".data b with
    | none =>
      rw [lFindSuffix_none_iff] at hf
      rw [hf] at hs
      exact Bool.noConfusion hs
    | some suf =>
      have hfb : lFindSuffix "Blocks/Lots/Units:".data b = none := by
        rw [lFindSuffix_none_iff]
        exact hb
      rw [hfb]
      simp

/-- C5 witness: the theorem's per-block clauses at a concrete block with a
service line and no location line, and the parse of a two-block response. -/
theorem categorization_parse_spec_witness :
    (blockRawPair "Service: Grading Work\nextra text".data).map Prod.snd
      = some "Not specified".data ∧
    joinSep "\n\n".data
        (reSplitServiceBlocks "Service: A\nBlocks/Lots/Units: L\n\nService: B".data)
      = "Service: A\nBlocks/Lots/Units: L\n\nService: B".data := by
  constructor
  · exact (categorization_parse_spec [] "Service: Grading Work\nextra text".data).2.2.2.2.2
      (by decide) (by decide)
  · exact (categorization_parse_spec
      "Service: A\nBlocks/Lots/Units: L\n\nService: B".data []).1

theorem splitFirst_none_iff (c : Char) : ∀ s : List Char,
    splitFirst c s = none ↔ c ∉ s := by
  intro s
  induction s with
  | nil => simp [splitFirst]
  | cons x r ih =>
    by_cases hx : x = c
    · subst hx
      simp [splitFirst]
    · simp only [splitFirst, hx, if_false, List.mem_cons]
      cases hf : splitFirst c r with
      | none =>
        simp only [Option.map_none']
        constructor
        · intro _ hmem
          rcases hmem with he | hm
          · exact hx he.symm
          · rw [hf] at ih
            exact (ih.mp rfl) hm
        · intro _
          trivial
      | some p =>
        simp only [Option.map_some']
        constructor
        · intro he
          exact absurd he (by simp)
        · intro hn
          exfalso
          apply hn
          right
          by_contra hcr
          rw [ih.mpr hcr] at hf
          exact Option.noConfusion hf

/-- C7: the field parser is total and best-effort — a blank or colon-free line
contributes nothing, a line whose label token fails integer parsing
contributes nothing, and an index that no line of the response successfully
parses to is absent from the resulting field map. -/
theorem parseFields_best_effort :
    (∀ line : List Char, (pyStrip line = [] ∨ ':' ∉ pyStrip line) →
      lineEntry line = none) ∧
    (∀ line lft rgt : List Char, splitFirst ':' (pyStrip line) = some (lft, rgt) →
      pyInt (labelTok lft) = none → lineEntry line = none) ∧
    (∀ (text : List Char) (i : Int),
      (∀ l ∈ splitNl (pyStrip text), lineIdx l ≠ some i) →
      parseFields text i = none) := by
  refine ⟨?_, ?_, ?_⟩
  · intro line h
    rcases h with h | h
    · simp [lineEntry, h]
    · rw [lineEntry]
      by_cases hb : pyStrip line = []
      · simp [hb]
      · rw [if_neg hb, (splitFirst_none_iff ':' (pyStrip line)).mpr h]
  · intro line lft rgt hsp hint
    rw [lineEntry]
    by_cases hb : pyStrip line = []
    · simp [hb]
    · rw [if_neg hb, hsp]
      simp [hint]
  · intro text i h
    rw [parseFields, foldl_parseStep_skip h]
    rfl

/-- C7 witness: a colon-free line, a prose label line, and a prose-only
response through the theorem. -/
theorem parseFields_best_effort_witness :
    lineEntry "no colon here".data = none ∧
    lineEntry "just a note: done".data = none ∧
    parseFields "some prose\nmore prose: here".data 5 = none := by
  refine ⟨?_, ?_, ?_⟩
  · exact parseFields_best_effort.1 "no colon here".data (Or.inr (by decide))
  · exact parseFields_best_effort.2.1 "just a note: done".data "just a note".data
      " done".data (by decide) (by decide)
  · exact parseFields_best_effort.2.2 "some prose\nmore prose: here".data 5 (by decide)

theorem lineEntry_field_line {ds label value : List Char}
    (hne : ds ≠ []) (hd : ∀ c ∈ ds, isDigitChar c = true) (hlab : ':' ∉ label) :
    lineEntry (ds ++ ('.' :: label) ++ (':' :: value))
      = some ((digitsToNat ds : Int), pyStrip value) := by
  obtain ⟨d, ds', rfl⟩ : ∃ d ds', ds = d :: ds' := by
    cases ds with
    | nil => exact absurd rfl hne
    | cons d ds' => exact ⟨d, ds', rfl⟩
  have hd0 : isDigitChar d = true := hd d (List.mem_cons_self _ _)
  have hdrop : ((d :: ds') ++ ('.' :: label) ++ (':' :: value)).dropWhile pyIsSpace
      = (d :: ds') ++ ('.' :: label) ++ (':' :: value) := by
    simp [List.cons_append, List.dropWhile_cons, digit_not_space hd0]
  have hstrip : pyStrip ((d :: ds') ++ ('.' :: label) ++ (':' :: value))
      = ((d :: ds') ++ ('.' :: label)) ++ (':' :: rstripChars value) := by
    rw [pyStrip, hdrop, rstrip_anchor (by decide)]
  have hndl : (':' : Char) ∉ (d :: ds') ++ ('.' :: label) := by
    simp only [List.mem_append, List.mem_cons]
    rintro ((he | hm) | (he2 | hm2))
    · exact digit_ne hd0 (by decide) he.symm
    · exact digit_ne (hd ':' (List.mem_cons_of_mem _ hm)) (by decide) rfl
    · exact absurd he2 (by decide)
    · exact hlab hm2
  have hsplit : splitFirst ':' (pyStrip ((d :: ds') ++ ('.' :: label) ++ (':' :: value)))
      = some ((d :: ds') ++ ('.' :: label), rstripChars value) := by
    rw [hstrip]
    exact splitFirst_anchor hndl _
  have hnempty : pyStrip ((d :: ds') ++ ('.' :: label) ++ (':' :: value)) ≠ [] := by
    rw [hstrip]
    simp
  have hfdrop : ((d :: ds') ++ ('.' :: label)).dropWhile pyIsSpace
      = (d :: ds') ++ ('.' :: label) := by
    simp [List.cons_append, List.dropWhile_cons, digit_not_space hd0]
  have hfn : pyStrip ((d :: ds') ++ ('.' :: label))
      = (d :: ds') ++ ('.' :: rstripChars label) := by
    rw [pyStrip, hfdrop, rstrip_anchor (by decide)]
  have hmemdot : ('.' : Char) ∈ (d :: ds') ++ ('.' :: rstripChars label) := by simp
  have hlabelTok : labelTok ((d :: ds') ++ ('.' :: label)) = d :: ds' := by
    rw [labelTok]
    simp only [hfn]
    rw [if_pos hmemdot]
    rw [takeWhile_anchor (by decide) (fun x hx => by
      simp only [decide_eq_true_eq]
      exact digit_ne (hd x hx) (by decide)) _]
    exact pyStrip_all_nonspace (fun x hx => digit_not_space (hd x hx))
  have hint : pyInt (labelTok ((d :: ds') ++ ('.' :: label)))
      = some ((digitsToNat (d :: ds') : Int)) := by
    rw [hlabelTok]
    exact pyInt_digits hne hd
  rw [lineEntry]
  simp only [hnempty, if_false, hsplit, hint, pyStrip_rstrip]

/-- C6: parsing a response containing the field line `"<i>. label: value"`
(with a digit-string index, a colon-free label, and arbitrary whitespace
around the colon) and looking up index `i` yields `value` trimmed; the split
happens at the first colon only, so a value containing a colon is preserved in
full, and — since earlier lines of the response are processed first and
overwritten — the last line carrying index `i` wins. -/
theorem field_line_roundtrip : ∀ (text : List Char) (pre post : List (List Char))
    (ds label value : List Char),
    ds ≠ [] → (∀ c ∈ ds, isDigitChar c = true) → ':' ∉ label →
    splitNl (pyStrip text) = pre ++ (ds ++ ('.' :: label) ++ (':' :: value)) :: post →
    (∀ l ∈ post, lineIdx l ≠ some (digitsToNat ds : Int)) →
    parseFields text (digitsToNat ds : Int) = some (pyStrip value) := by
  intro text pre post ds label value hne hd hlab hsplit hpost
  rw [parseFields, hsplit, List.foldl_append, List.foldl_cons,
    foldl_parseStep_skip hpost]
  simp only [parseStep, lineEntry_field_line hne hd hlab]
  simp [fmSet]

/-- C6 witness: the spec's `"08. Service1:  325 DL "` line (extra whitespace
around the colon, a later line carrying a different index) through the
theorem, and the value-with-colon and last-occurrence-wins readings at
concrete responses. -/
theorem field_line_roundtrip_witness :
    parseFields "08. Service1:  325 DL \n09. D1: 16".data 8 = some "325 DL".data ∧
    parseFields "5. note: see: page 2".data 5 = some "see: page 2".data ∧
    parseFields "7. x: first\n7. x: second".data 7 = some "second".data := by
  refine ⟨?_, ?_, ?_⟩
  · have h := field_line_roundtrip "08. Service1:  325 DL \n09. D1: 16".data []
      ["09. D1: 16".data] "08".data " Service1".data "  325 DL ".data
      (by decide) (by decide) (by decide) (by decide) (by decide)
    rw [show ((digitsToNat "08".data : Int)) = 8 from by decide,
      show pyStrip "  325 DL ".data = "325 DL".data from by decide] at h
    exact h
  · have h := field_line_roundtrip "5. note: see: page 2".data [] []
      "5".data " note".data " see: page 2".data
      (by decide) (by decide) (by decide) (by decide) (by decide)
    rw [show ((digitsToNat "5".data : Int)) = 5 from by decide,
      show pyStrip " see: page 2".data = "see: page 2".data from by decide] at h
    exact h
  · have h := field_line_roundtrip "7. x: first\n7. x: second".data
      ["7. x: first".data] [] "7".data " x".data " second".data
      (by decide) (by decide) (by decide) (by decide) (by decide)
    rw [show ((digitsToNat "7".data : Int)) = 7 from by decide,
      show pyStrip " second".data = "second".data from by decide] at h
    exact h
